import Mathlib

/-!
# gh-update-release: a verification development of `main.go`

The program edits the body of one or all releases of a GitHub repository by a
literal string substitution.  This file embeds `main.go` in Lean and states the
properties of its specification over that embedding.

Conventions of the embedding

* A Go `string` is a Lean `String`, that is a sequence of Unicode code points.
  On well-formed UTF-8 (command-line text, JSON bodies) Go's byte-level
  `strings` functions agree with the code-point-level ones written here, since
  a match of a well-formed pattern starts and ends at a code-point border.
* The Go standard library (`strings`, `bufio`, `fmt`) and the `go-github`
  client are not part of the repository; the functions used by `main.go` are
  written after their own source and documentation, and the client is a
  parameter.
* Effects are explicit: every function takes and returns a `World` holding what
  is left of standard input, what has been printed, the network calls issued so
  far and the state of the remote service.
* The two unbounded `for` loops of `main.go` take a fuel argument; running out
  of fuel is the outcome `hang`.
* Standard input is a finite sequence of code points and its end is final, as
  for a file or a pipe.
-/

namespace GhUpdateRelease

/-! ## Go's `strings` package -/

/-- Go's `strings.HasPrefix` on code-point lists. -/
def hasPrefix : List Char → List Char → Bool
  | _, [] => true
  | [], _ :: _ => false
  | c :: s, d :: p => c == d && hasPrefix s p

/-- Go's `strings.Index` on code-point lists: the offset of the first instance
of `substr` in `s`, or `none` where Go returns `-1`. -/
def indexList : List Char → List Char → Option Nat
  | [], substr => if substr.isEmpty then some 0 else none
  | c :: s, substr =>
    if hasPrefix (c :: s) substr then some 0
    else (indexList s substr).map (· + 1)

/-- Go's `strings.Index`: the index of the first instance of `substr` in `s`,
or `-1` if `substr` is not present in `s`. -/
def Index (s substr : String) : Int :=
  match indexList s.data substr.data with
  | some i => (i : Int)
  | none => -1

/-- Go's `strings.Contains`: `Index(s, substr) >= 0`. -/
def Contains (s substr : String) : Bool :=
  decide (Index s substr ≥ 0)

/-- The loop of Go's `strings.Count` for a non-empty `substr`:
`for { i := Index(s, substr); if i == -1 { return n }; n++; s = s[i+len(substr):] }`.
Every round shortens `s`, so `s.length + 1` rounds of fuel always suffice. -/
def countLoop (substr : List Char) : Nat → List Char → Nat
  | 0, _ => 0
  | fuel + 1, s =>
    match indexList s substr with
    | none => 0
    | some i => countLoop substr fuel (s.drop (i + substr.length)) + 1

/-- Go's `strings.Count`: the number of non-overlapping instances of `substr`
in `s`; for an empty `substr` it is the number of code points of `s` plus one.
(The single-byte fast path of the library counts the same instances.) -/
def countList (s substr : List Char) : Nat :=
  if substr.isEmpty then s.length + 1
  else countLoop substr (s.length + 1) s

/-- The replacement loop of Go's `strings.Replace`, `n - i` rounds to go.
`rest` is `s[start:]` and `b` the builder; `first` says that `i = 0`.
In a round: `j` is `start`, moved one code point on for an empty `old` unless
`i = 0`, or moved to the next instance of `old`; `s[start:j]` and `new` are
written, and `start` becomes `j + len(old)`.  After the last round the rest of
`s` is written.  (`Count` has found the instances beforehand, so `Index` does
not miss in a round; the default `0` is never taken.) -/
def replaceLoop (old new : List Char) : Nat → Bool → List Char → List Char → List Char
  | 0, _, rest, b => b ++ rest
  | k + 1, first, rest, b =>
    let j : Nat :=
      if old.isEmpty then (if first then 0 else min 1 rest.length)
      else (indexList rest old).getD 0
    replaceLoop old new k false (rest.drop (j + old.length)) (b ++ rest.take j ++ new)

/-- Go's `strings.Replace(s, old, new, n)` on code-point lists. -/
def replaceList (s old new : List Char) (n : Int) : List Char :=
  if old = new ∨ n = 0 then s
  else
    let m := countList s old
    if m = 0 then s
    else
      let n' : Nat := if n < 0 ∨ (m : Int) < n then m else n.toNat
      replaceLoop old new n' true s []

/-- Go's `strings.Replace`. -/
def Replace (s old new : String) (n : Int) : String :=
  ⟨replaceList s.data old.data new.data n⟩

/-- Go's `strings.ReplaceAll(s, old, new)`, which is `Replace(s, old, new, -1)`. -/
def ReplaceAll (s old new : String) : String :=
  Replace s old new (-1)

/-- Lexicographic comparison of code-point lists, as Go compares strings. -/
def compareList : List Char → List Char → Int
  | [], [] => 0
  | [], _ :: _ => -1
  | _ :: _, [] => 1
  | c :: s, d :: t =>
    if c.toNat < d.toNat then -1
    else if d.toNat < c.toNat then 1
    else compareList s t

/-- Go's `strings.Compare`: `0` if `a == b`, `-1` if `a < b`, `+1` if `a > b`. -/
def Compare (a b : String) : Int :=
  compareList a.data b.data

/-- Go's `unicode.IsSpace`: the code points with the White Space property. -/
def IsSpace (c : Char) : Bool :=
  let n := c.toNat
  n == 0x09 || n == 0x0A || n == 0x0B || n == 0x0C || n == 0x0D || n == 0x20 ||
  n == 0x85 || n == 0xA0 || n == 0x1680 || (0x2000 ≤ n && n ≤ 0x200A) ||
  n == 0x2028 || n == 0x2029 || n == 0x202F || n == 0x205F || n == 0x3000

/-- Go's `strings.TrimSpace`: `s` without its leading and trailing white space. -/
def TrimSpace (s : String) : String :=
  ⟨((s.data.dropWhile IsSpace).reverse.dropWhile IsSpace).reverse⟩

/-! ## Go errors and `fmt.Errorf` -/

/-- A Go `error` value: `errorString` is what `fmt.Errorf` builds without `%w`,
`wrapError` what it builds with `%w` (the text and the wrapped error).  Errors of
the client library are values of this type as well: only `Error()` is read. -/
inductive GoError where
  | errorString (msg : String)
  | wrapError (msg : String) (err : GoError)
deriving DecidableEq, Repr

/-- Go's `err.Error()`: the text of the error. -/
def GoError.Error : GoError → String
  | .errorString msg => msg
  | .wrapError msg _ => msg

/-! ## The `go-github` client -/

/-- The fields of `github.RepositoryRelease` (all pointers, `none` is `nil`).
`ID`, `TagName` and `Body` are the ones `main.go` reads; the others stand for
the rest of the record, which is sent back as it was fetched. -/
structure RepositoryRelease where
  ID : Option Int
  TagName : Option String
  TargetCommitish : Option String
  Name : Option String
  Body : Option String
  Draft : Option Bool
  Prerelease : Option Bool
deriving DecidableEq, Repr

/-- The getter `GetID`: the zero value for a `nil` field. -/
def RepositoryRelease.GetID (r : RepositoryRelease) : Int := r.ID.getD 0

/-- The getter `GetTagName`: the zero value for a `nil` field. -/
def RepositoryRelease.GetTagName (r : RepositoryRelease) : String := r.TagName.getD ""

/-- The getter `GetBody`: the zero value for a `nil` field. -/
def RepositoryRelease.GetBody (r : RepositoryRelease) : String := r.Body.getD ""

/-- The fields of `github.Response` that `main.go` reads. -/
structure Response where
  StatusCode : Int
  NextPage : Int
deriving DecidableEq, Repr

/-- The type `github.ListOptions`. -/
structure ListOptions where
  Page : Int
  PerPage : Int
deriving DecidableEq, Repr

/-- What a call of the client returns, `(value, resp, err)`.  With `err == nil`
the value and the response are there.  With `err != nil` the response is there
when the service answered (a 404, a 500) and is `nil` when no HTTP exchange took
place (the request could not be built or sent). -/
inductive Reply (α : Type) where
  | success (val : α) (resp : Response)
  | failure (resp : Option Response) (err : GoError)

/-- The three calls of `client.Repositories` that `main.go` makes, over a state
`σ` of the remote service.  `EditRelease` gives only its error: `main.go`
discards the other two results. -/
structure Client (σ : Type) where
  GetReleaseByTag : σ → String → String → String → Reply RepositoryRelease × σ
  ListReleases : σ → String → String → ListOptions → Reply (List RepositoryRelease) × σ
  EditRelease : σ → String → String → Int → RepositoryRelease → Option GoError × σ

/-- A network call as it was issued, with its arguments. -/
inductive Call where
  | GetReleaseByTag (owner repo tag : String)
  | ListReleases (owner repo : String) (opts : ListOptions)
  | EditRelease (owner repo : String) (id : Int) (release : RepositoryRelease)
deriving DecidableEq, Repr

/-- Whether a call is a write (edit-release). -/
def Call.isWrite : Call → Bool
  | .EditRelease _ _ _ _ => true
  | _ => false

/-! ## The world and outcomes -/

/-- What the program acts on: the unread standard input, the chunks written to
standard output, the network calls issued, all in order, and the state of the
remote service. -/
structure World (σ : Type) where
  stdin : List Char
  stdout : List String
  calls : List Call
  remote : σ

/-- Go's `fmt.Printf` with the text already formatted. -/
def World.Printf {σ : Type} (w : World σ) (text : String) : World σ :=
  { w with stdout := w.stdout ++ [text] }

/-- Go's `fmt.Println`. -/
def World.Println {σ : Type} (w : World σ) (text : String) : World σ :=
  { w with stdout := w.stdout ++ [text ++ "\n"] }

/-- How a function ends: it returns a value, it panics (a `nil` dereference),
or its loop is still running when the fuel is used up. -/
inductive Outcome (α : Type) where
  | ret (a : α)
  | panic
  | hang
deriving DecidableEq, Repr

/-! ## `main.go` -/

/-- Go's `bufio.Reader.ReadString(delim)`: the input up to and including the
first `delim`, or all of it when the input ends before a `delim` (the error is
discarded by the caller); and what is left unread. -/
def ReadString (delim : Char) : List Char → List Char × List Char
  | [] => ([], [])
  | c :: cs =>
    if c = delim then ([c], cs)
    else ((ReadString delim cs).1.cons c, (ReadString delim cs).2)

/-- `StringPrompt` of `main.go` (lines 15-26).  A read takes one line from the
input and leaves what follows it, as on a terminal; the `bufio.Reader` of the
source may take more from a file or a pipe, which is then gone with the reader. -/
def StringPrompt {σ : Type} (prompt : String) : Nat → World σ → Outcome String × World σ
  | 0, w => (.hang, w)
  | fuel + 1, w =>
    let w1 := w.Printf (prompt ++ ": ")
    let s : String := ⟨(ReadString '\n' w1.stdin).1⟩
    let w2 : World σ := { w1 with stdin := (ReadString '\n' w1.stdin).2 }
    if s ≠ "" then (.ret (TrimSpace s), w2)
    else StringPrompt prompt fuel w2

/-- `getRelease` of `main.go` (lines 28-39).  On an error it reads
`resp.StatusCode` first, which panics on a `nil` response. -/
def getRelease {σ : Type} (client : Client σ) (owner repo tag : String) (w : World σ) :
    Outcome (Except GoError RepositoryRelease) × World σ :=
  let reply := client.GetReleaseByTag w.remote owner repo tag
  let w1 : World σ :=
    { w with calls := w.calls ++ [Call.GetReleaseByTag owner repo tag], remote := reply.2 }
  match reply.1 with
  | .failure none _ => (.panic, w1)
  | .failure (some resp) err =>
    if resp.StatusCode = 404 then
      (.ret (.error (.errorString ("release " ++ tag ++ " not found"))), w1)
    else
      (.ret (.error (.wrapError ("failed to get release " ++ tag ++ ": " ++ err.Error) err)), w1)
  | .success release _ => (.ret (.ok release), w1)

/-- The `for` loop of `getAllReleases` (lines 46-60). -/
def getAllReleasesLoop {σ : Type} (client : Client σ) (owner repo : String) :
    Nat → ListOptions → List RepositoryRelease → World σ →
    Outcome (Except GoError (List RepositoryRelease)) × World σ
  | 0, _, _, w => (.hang, w)
  | fuel + 1, opts, allReleases, w =>
    let reply := client.ListReleases w.remote owner repo opts
    let w1 : World σ :=
      { w with calls := w.calls ++ [Call.ListReleases owner repo opts], remote := reply.2 }
    match reply.1 with
    | .failure none _ => (.panic, w1)
    | .failure (some resp) err =>
      if resp.StatusCode = 404 then
        (.ret (.error (.errorString ("repository " ++ owner ++ "/" ++ repo ++ " not found"))), w1)
      else
        (.ret (.error (.wrapError ("failed to list releases: " ++ err.Error) err)), w1)
    | .success releases resp =>
      if resp.NextPage = 0 then (.ret (.ok (allReleases ++ releases)), w1)
      else
        getAllReleasesLoop client owner repo fuel { opts with Page := resp.NextPage }
          (allReleases ++ releases) w1

/-- `getAllReleases` of `main.go` (lines 41-63). -/
def getAllReleases {σ : Type} (client : Client σ) (owner repo : String) (fuel : Nat)
    (w : World σ) : Outcome (Except GoError (List RepositoryRelease)) × World σ :=
  getAllReleasesLoop client owner repo fuel { Page := 0, PerPage := 100 } [] w

/-- `updateReleaseBody` of `main.go` (lines 65-80).  The release is a pointer
in Go, so the release as the function leaves it is part of the result. -/
def updateReleaseBody {σ : Type} (client : Client σ) (release : RepositoryRelease)
    (owner repo value replacement : String) (w : World σ) :
    Option GoError × RepositoryRelease × World σ :=
  let body := ReplaceAll release.GetBody value replacement
  if Compare body release.GetBody = 0 then
    (none, release,
      w.Printf (release.GetTagName ++ ": No changes to release body found, skipping\n"))
  else
    let release : RepositoryRelease := { release with Body := some body }
    let w1 := w.Printf (release.GetTagName ++ ": Updating release body\n")
    let reply := client.EditRelease w1.remote owner repo release.GetID release
    let w2 : World σ :=
      { w1 with calls := w1.calls ++ [Call.EditRelease owner repo release.GetID release],
                remote := reply.2 }
    match reply.1 with
    | some err =>
      (some (.wrapError (release.GetTagName ++ ": failed to update release body: " ++ err.Error)
        err), release, w2)
    | none => (none, release, w2)

/-- The `for ... range releases` loop of `run` (lines 114-120): `some err` when
an update failed and `run` returns `err`, `none` when the loop ran to its end. -/
def updateAll {σ : Type} (client : Client σ) (owner repo value replacement : String) :
    List RepositoryRelease → World σ → Option GoError × World σ
  | [], w => (none, w)
  | release :: rest, w =>
    let w1 := w.Printf (release.GetTagName ++ ": Checking for updates to release body\n")
    match updateReleaseBody client release owner repo value replacement w1 with
    | (some err, _, w2) => (some err, w2)
    | (none, _, w2) => updateAll client owner repo value replacement rest w2

/-- The flags of the command line as `run` reads them from `cli.Context`. -/
structure Flags where
  owner : String
  repo : String
  value : String
  replacement : String
  token : String
  all : Bool
  release : String
deriving DecidableEq, Repr

/-- The block `if all { ... }` of `run` (lines 99-121): `some o` when the block
returns from `run` with outcome `o`, `none` when control falls out of it. -/
def runAll {σ : Type} (NewClient : String → Client σ) (ctx : Flags) (fuel : Nat) (w : World σ) :
    Option (Outcome (Option GoError)) × World σ :=
  match StringPrompt "Are you sure you want to update all releases? (y/n)" fuel w with
  | (.hang, w1) => (some .hang, w1)
  | (.panic, w1) => (some .panic, w1)
  | (.ret response, w1) =>
    if response ≠ "y" then (some (.ret none), w1.Println "Invalid response, aborting")
    else
      let client := NewClient ctx.token
      let w2 := w1.Println "Fetching all releases"
      match getAllReleases client ctx.owner ctx.repo fuel w2 with
      | (.hang, w3) => (some .hang, w3)
      | (.panic, w3) => (some .panic, w3)
      | (.ret (.error err), w3) => (some (.ret (some err)), w3)
      | (.ret (.ok releases), w3) =>
        match updateAll client ctx.owner ctx.repo ctx.value ctx.replacement releases w3 with
        | (some err, w4) => (some (.ret (some err)), w4)
        | (none, w4) => (none, w4)

/-- The block `if tag != "" { ... }` of `run` (lines 123-138); it always returns. -/
def runTag {σ : Type} (NewClient : String → Client σ) (ctx : Flags) (fuel : Nat) (w : World σ) :
    Outcome (Option GoError) × World σ :=
  match StringPrompt ("Are you sure you want to update release " ++ ctx.release ++ "? (y/n)")
      fuel w with
  | (.hang, w1) => (.hang, w1)
  | (.panic, w1) => (.panic, w1)
  | (.ret response, w1) =>
    if response ≠ "y" then (.ret none, w1.Println "Invalid response, aborting")
    else
      let client := NewClient ctx.token
      match getRelease client ctx.owner ctx.repo ctx.release w1 with
      | (.hang, w2) => (.hang, w2)
      | (.panic, w2) => (.panic, w2)
      | (.ret (.error err), w2) => (.ret (some err), w2)
      | (.ret (.ok release), w2) =>
        let r := updateReleaseBody client release ctx.owner ctx.repo ctx.value ctx.replacement w2
        (.ret r.1, r.2.2)

/-- `run` of `main.go` (lines 82-141).  `NewClient token` stands for
`github.NewClient(nil).WithAuthToken(token)`. -/
def run {σ : Type} (NewClient : String → Client σ) (ctx : Flags) (fuel : Nat) (w : World σ) :
    Outcome (Option GoError) × World σ :=
  if ctx.all = true ∧ ctx.release ≠ "" then
    (.ret (some (.errorString "cannot specify both --all and --release")), w)
  else if ctx.all = false ∧ ctx.release = "" then
    (.ret (some (.errorString "must specify either --all or --release")), w)
  else
    match (if ctx.all = true then runAll NewClient ctx fuel w else (none, w)) with
    | (some o, w1) => (o, w1)
    | (none, w1) =>
      if ctx.release ≠ "" then runTag NewClient ctx fuel w1
      else (.ret none, w1)

/-! ## Notions used in the statements -/

/-- The two messages of the usage errors of `run` (lines 92 and 96). -/
def IsUsageError (e : GoError) : Prop :=
  e.Error = "cannot specify both --all and --release" ∨
  e.Error = "must specify either --all or --release"

/-- The write calls of a batch in which every write succeeds: in listing order,
one edit for every release whose body `ReplaceAll` changes, addressed to the
release's ID and carrying the release with the new body. -/
def writesOf (owner repo V R : String) (releases : List RepositoryRelease) : List Call :=
  releases.filterMap fun r =>
    if ReplaceAll r.GetBody V R ≠ r.GetBody then
      some (Call.EditRelease owner repo r.GetID
        { r with Body := some (ReplaceAll r.GetBody V R) })
    else none

/-! ## Concrete services for the worked examples -/

/-- An in-memory repository: its state is the list of its releases.  Listing
serves pages of at most `cap` releases (page `0` is page `1`), a tag that is not
there answers 404, and an edit fails with a 500 for the IDs in `failing` and
otherwise stores the release. -/
def memClient (cap : Nat) (failing : List Int) : Client (List RepositoryRelease) where
  GetReleaseByTag s _ _ tag :=
    match s.find? (fun r => r.GetTagName == tag) with
    | some r => (.success r { StatusCode := 200, NextPage := 0 }, s)
    | none =>
      (.failure (some { StatusCode := 404, NextPage := 0 }) (.errorString "404 Not Found"), s)
  ListReleases s _ _ opts :=
    let page : Nat := max opts.Page.toNat 1
    let size : Nat := min opts.PerPage.toNat cap
    (.success ((s.drop ((page - 1) * size)).take size)
      { StatusCode := 200,
        NextPage := if page * size < s.length then ((page + 1 : Nat) : Int) else 0 }, s)
  EditRelease s _ _ id release :=
    if id ∈ failing then (some (.errorString "500 Internal Server Error"), s)
    else (none, s.map fun r => if r.GetID = id then release else r)

/-- A client without network: every call fails and there is no HTTP response. -/
def offlineClient : Client Unit where
  GetReleaseByTag s _ _ _ := (.failure none (.errorString "dial tcp: no route to host"), s)
  ListReleases s _ _ _ := (.failure none (.errorString "dial tcp: no route to host"), s)
  EditRelease s _ _ _ _ := (some (.errorString "dial tcp: no route to host"), s)

/-- A release with an ID, a tag and a body, and nothing else set. -/
def mkRelease (id : Int) (tag body : String) : RepositoryRelease :=
  { ID := some id, TagName := some tag, TargetCommitish := none, Name := none,
    Body := some body, Draft := none, Prerelease := none }

/-! ## The listing service as a map of pages -/

/-- What the listing service gives for the request of one page: a failure, with
or without an HTTP response, or the releases of the page and the number of the
next page (`0` on the last page). -/
inductive PageResult where
  | failed (resp : Option Response) (err : GoError)
  | page (releases : List RepositoryRelease) (nextPage : Int)

/-- The client of a listing service given as a map from page numbers to page
results; the page size asked for does not change what a page holds. -/
def pagedClient (pages : Int → PageResult) : Client Unit where
  GetReleaseByTag s _ _ _ :=
    (.failure (some { StatusCode := 404, NextPage := 0 }) (.errorString "404 Not Found"), s)
  ListReleases s _ _ opts :=
    match pages opts.Page with
    | .failed resp err => (.failure resp err, s)
    | .page releases nextPage =>
      (.success releases { StatusCode := 200, NextPage := nextPage }, s)
  EditRelease s _ _ _ _ := (none, s)

/-- Following `nextPage` from page `p`: `walk` lists, in order, the pages that
were fetched with success and announced a further page, each with its releases,
and `q` is the page to request after them. -/
def Reaches (pages : Int → PageResult) : Int → List (Int × List RepositoryRelease) → Int → Prop
  | p, [], q => q = p
  | p, (p', releases) :: rest, q =>
    p' = p ∧ ∃ next, next ≠ 0 ∧ pages p = .page releases next ∧ Reaches pages next rest q

/-- The list calls for the pages of a walk, each with page size 100. -/
def listCalls (owner repo : String) (visited : List Int) : List Call :=
  visited.map fun p => Call.ListReleases owner repo { Page := p, PerPage := 100 }

/-! ## Inputs of the worked examples -/

/-- A listing of two pages whose second page cannot be fetched: page `0` holds
one release and announces page `2`, the request for page `2` fails before any
HTTP exchange. -/
def brokenSecondPage : Int → PageResult := fun p =>
  if p = 0 then .page [mkRelease 1 "v1" "see CHANGELOG"] 2
  else .failed none (.errorString "dial tcp: no route to host")

/-- A listing of two pages: page `0` holds `v1` and announces page `2`, page `2`
holds `v2` and is the last. -/
def twoPages : Int → PageResult := fun p =>
  if p = 0 then .page [mkRelease 1 "v1" "see CHANGELOG"] 2
  else .page [mkRelease 2 "v2" "no match here"] 0

/-- The flags `--all` with the given value and replacement. -/
def batchFlags (value replacement : String) : Flags :=
  { owner := "o", repo := "r", value := value, replacement := replacement, token := "t",
    all := true, release := "" }

/-- The flags `--release tag` with the given value and replacement. -/
def singleFlags (tag value replacement : String) : Flags :=
  { owner := "o", repo := "r", value := value, replacement := replacement, token := "t",
    all := false, release := tag }

/-- A world at the start of the program: the given standard input, nothing
printed, no call issued. -/
def startWorld {σ : Type} (input : String) (remote : σ) : World σ :=
  { stdin := input.data, stdout := [], calls := [], remote := remote }

/-! ## Facts about the string functions -/

theorem char_eq_of_toNat_eq {c d : Char} (h : c.toNat = d.toNat) : c = d := by
  apply Char.eq_of_val_eq
  exact UInt32.toNat.inj h

theorem compareList_eq_zero_iff (a b : List Char) : compareList a b = 0 ↔ a = b := by
  induction a generalizing b with
  | nil => cases b <;> simp [compareList]
  | cons c s ih =>
    cases b with
    | nil => simp [compareList]
    | cons d t =>
      simp only [compareList, List.cons.injEq]
      by_cases h1 : c.toNat < d.toNat
      · simp only [h1, if_true]
        constructor
        · intro h; exact absurd h (by decide)
        · rintro ⟨rfl, _⟩; exact absurd h1 (lt_irrefl _)
      · by_cases h2 : d.toNat < c.toNat
        · simp only [h1, h2, if_true, if_false]
          constructor
          · intro h; exact absurd h (by decide)
          · rintro ⟨rfl, _⟩; exact absurd h2 (lt_irrefl _)
        · have hcd : c = d := char_eq_of_toNat_eq (by omega)
          subst hcd
          simp only [h1, if_false, ih t, true_and]

theorem Compare_eq_zero_iff (a b : String) : Compare a b = 0 ↔ a = b := by
  unfold Compare
  rw [compareList_eq_zero_iff]
  exact ⟨String.ext, fun h => by rw [h]⟩

theorem countList_eq_zero_iff (s substr : List Char) :
    countList s substr = 0 ↔ indexList s substr = none := by
  unfold countList
  cases substr with
  | nil => cases s <;> simp [indexList, hasPrefix]
  | cons d p =>
    simp only [List.isEmpty_cons, Bool.false_eq_true, if_false, countLoop]
    cases h : indexList s (d :: p) <;> simp

theorem replaceList_of_indexList_none (s old new : List Char) (n : Int)
    (h : indexList s old = none) : replaceList s old new n = s := by
  unfold replaceList
  have hm : countList s old = 0 := (countList_eq_zero_iff s old).2 h
  simp [hm]

theorem Contains_eq_false_iff (s substr : String) :
    Contains s substr = false ↔ indexList s.data substr.data = none := by
  unfold Contains Index
  cases h : indexList s.data substr.data with
  | none => simp
  | some i => simp

/-- When `old` does not occur in `s`, `ReplaceAll` gives `s` back. -/
theorem ReplaceAll_of_not_Contains (s old new : String) (h : Contains s old = false) :
    ReplaceAll s old new = s := by
  unfold ReplaceAll Replace
  rw [replaceList_of_indexList_none _ _ _ _ ((Contains_eq_false_iff s old).1 h)]

/-! ## `updateReleaseBody` -/

theorem updateReleaseBody_of_unchanged {σ : Type} (client : Client σ)
    (release : RepositoryRelease) (owner repo value replacement : String) (w : World σ)
    (h : ReplaceAll release.GetBody value replacement = release.GetBody) :
    updateReleaseBody client release owner repo value replacement w =
      (none, release,
        w.Printf (release.GetTagName ++ ": No changes to release body found, skipping\n")) := by
  unfold updateReleaseBody
  simp only [h, (Compare_eq_zero_iff _ _).2 rfl, if_true]

theorem updateReleaseBody_of_changed {σ : Type} (client : Client σ)
    (release : RepositoryRelease) (owner repo value replacement : String) (w : World σ)
    (h : ReplaceAll release.GetBody value replacement ≠ release.GetBody) :
    (updateReleaseBody client release owner repo value replacement w).2.1 =
        { release with Body := some (ReplaceAll release.GetBody value replacement) } ∧
    (updateReleaseBody client release owner repo value replacement w).2.2.calls =
        w.calls ++ [Call.EditRelease owner repo release.GetID
          { release with Body := some (ReplaceAll release.GetBody value replacement) }] ∧
    (updateReleaseBody client release owner repo value replacement w).1 =
        ((client.EditRelease w.remote owner repo release.GetID
          { release with Body := some (ReplaceAll release.GetBody value replacement) }).1).map
          (fun err => GoError.wrapError
            (release.GetTagName ++ ": failed to update release body: " ++ err.Error) err) := by
  have hc : ¬ Compare (ReplaceAll release.GetBody value replacement) release.GetBody = 0 :=
    fun hc => h ((Compare_eq_zero_iff _ _).1 hc)
  unfold updateReleaseBody
  simp only [hc, if_false]
  cases hr : (client.EditRelease (w.Printf _).remote owner repo
      (RepositoryRelease.GetID { release with
        Body := some (ReplaceAll release.GetBody value replacement) })
      { release with Body := some (ReplaceAll release.GetBody value replacement) }).1 <;>
    simp_all [World.Printf, RepositoryRelease.GetID, RepositoryRelease.GetTagName]

/-- C2. `updateReleaseBody` issues a write (edit-release) call iff
`ReplaceAll(B, V, R)` differs from the body `B`.  When it does not differ, in
particular when `V` does not occur in `B`, it returns `nil`, issues no call and
leaves the release and the remote state as they were.  When it differs it
issues exactly one call, an edit addressed to the release's ID that carries the
release with the body `ReplaceAll(B, V, R)` and every other field unchanged. -/
theorem updateReleaseBody_writes_iff_changed {σ : Type} (client : Client σ)
    (release : RepositoryRelease) (owner repo V R : String) (w : World σ) :
    ((updateReleaseBody client release owner repo V R w).2.2.calls ≠ w.calls ↔
        ReplaceAll release.GetBody V R ≠ release.GetBody) ∧
    (ReplaceAll release.GetBody V R = release.GetBody →
        (updateReleaseBody client release owner repo V R w).1 = none ∧
        (updateReleaseBody client release owner repo V R w).2.1 = release ∧
        (updateReleaseBody client release owner repo V R w).2.2.calls = w.calls ∧
        (updateReleaseBody client release owner repo V R w).2.2.remote = w.remote) ∧
    (Contains release.GetBody V = false →
        ReplaceAll release.GetBody V R = release.GetBody) ∧
    (ReplaceAll release.GetBody V R ≠ release.GetBody →
        (updateReleaseBody client release owner repo V R w).2.2.calls =
          w.calls ++ [Call.EditRelease owner repo release.GetID
            { ID := release.ID, TagName := release.TagName,
              TargetCommitish := release.TargetCommitish, Name := release.Name,
              Body := some (ReplaceAll release.GetBody V R),
              Draft := release.Draft, Prerelease := release.Prerelease }] ∧
        (updateReleaseBody client release owner repo V R w).2.1 =
            { ID := release.ID, TagName := release.TagName,
              TargetCommitish := release.TargetCommitish, Name := release.Name,
              Body := some (ReplaceAll release.GetBody V R),
              Draft := release.Draft, Prerelease := release.Prerelease }) := by
  have hsame : ReplaceAll release.GetBody V R = release.GetBody →
      (updateReleaseBody client release owner repo V R w).1 = none ∧
      (updateReleaseBody client release owner repo V R w).2.1 = release ∧
      (updateReleaseBody client release owner repo V R w).2.2.calls = w.calls ∧
      (updateReleaseBody client release owner repo V R w).2.2.remote = w.remote := by
    intro h
    rw [updateReleaseBody_of_unchanged client release owner repo V R w h]
    exact ⟨rfl, rfl, rfl, rfl⟩
  refine ⟨?_, hsame, ReplaceAll_of_not_Contains _ _ _, ?_⟩
  · constructor
    · intro hcalls hsame'
      exact hcalls (hsame hsame').2.2.1
    · intro h hcalls
      have := (updateReleaseBody_of_changed client release owner repo V R w h).2.1
      rw [hcalls] at this
      simp at this
  · intro h
    have := updateReleaseBody_of_changed client release owner repo V R w h
    exact ⟨this.2.1, this.1⟩

/-- C3, as stated, fails: `"ab"` does not occur in `"b"`, yet replacing `"ab"`
by `"b"` in `"aab"` gives `"ab"`, and replacing again gives `"b"`. -/
theorem ReplaceAll_not_idempotent :
    Contains "b" "ab" = false ∧
    ReplaceAll (ReplaceAll "aab" "ab" "b") "ab" "b" ≠ ReplaceAll "aab" "ab" "b" := by
  decide

/-! ## No instance of `old` in the result of `ReplaceAll` -/

theorem hasPrefix_nil_right (l : List Char) : hasPrefix l [] = true := by
  cases l <;> rfl

theorem hasPrefix_cons_cons (c d : Char) (s p : List Char) :
    hasPrefix (c :: s) (d :: p) = (c == d && hasPrefix s p) := rfl

theorem indexList_cons_eq_none_iff (c : Char) (s substr : List Char) :
    indexList (c :: s) substr = none ↔
      hasPrefix (c :: s) substr = false ∧ indexList s substr = none := by
  rw [indexList]
  by_cases h : hasPrefix (c :: s) substr = true
  · simp [h]
  · simp [h]

theorem indexList_nil_of_ne_nil (substr : List Char) (h : substr ≠ []) :
    indexList [] substr = none := by
  cases substr with
  | nil => exact absurd rfl h
  | cons d p => simp [indexList]

/-- A prefix test that succeeds on a truncated list succeeds on the list. -/
theorem hasPrefix_of_take (l : List Char) (n : Nat) (p : List Char)
    (h : hasPrefix (l.take n) p = true) : hasPrefix l p = true := by
  induction l generalizing n p with
  | nil => simpa using h
  | cons c l ih =>
    cases p with
    | nil => rfl
    | cons d p =>
      cases n with
      | zero => simp [hasPrefix] at h
      | succ n =>
        rw [List.take_succ_cons, hasPrefix_cons_cons] at h
        rw [hasPrefix_cons_cons]
        simp only [Bool.and_eq_true] at h ⊢
        exact ⟨h.1, ih n p h.2⟩

/-- Before its first instance in `s`, `old` has no instance. -/
theorem indexList_take_eq_none (s old : List Char) (i : Nat) (hne : old ≠ [])
    (h : indexList s old = some i) : indexList (s.take i) old = none := by
  induction s generalizing i with
  | nil => simp [indexList_nil_of_ne_nil old hne] at h
  | cons c s ih =>
    rw [indexList] at h
    by_cases hp : hasPrefix (c :: s) old = true
    · simp only [hp, if_true, Option.some.injEq] at h
      subst h
      exact indexList_nil_of_ne_nil old hne
    · simp only [hp, Bool.false_eq_true, if_false, Option.map_eq_some'] at h
      obtain ⟨j, hj, rfl⟩ := h
      rw [List.take_succ_cons, indexList_cons_eq_none_iff]
      refine ⟨?_, ih j hj⟩
      cases hq : hasPrefix (c :: List.take j s) old with
      | false => rfl
      | true =>
        exfalso
        apply hp
        have := hasPrefix_of_take (c :: s) (j + 1) old (by rw [List.take_succ_cons]; exact hq)
        exact this

/-- The first instance of `old` lies within `s`. -/
theorem indexList_add_length_le (s old : List Char) (i : Nat)
    (h : indexList s old = some i) : i + old.length ≤ s.length := by
  induction s generalizing i with
  | nil =>
    cases old with
    | nil => simp [indexList] at h; omega
    | cons d p => simp [indexList] at h
  | cons c s ih =>
    rw [indexList] at h
    by_cases hp : hasPrefix (c :: s) old = true
    · simp only [hp, if_true, Option.some.injEq] at h
      subst h
      clear ih
      have : ∀ (l p : List Char), hasPrefix l p = true → p.length ≤ l.length := by
        intro l
        induction l with
        | nil => intro p hp; cases p <;> simp_all [hasPrefix]
        | cons a l ihl =>
          intro p hp
          cases p with
          | nil => simp
          | cons d p =>
            rw [hasPrefix_cons_cons] at hp
            simp only [Bool.and_eq_true] at hp
            have := ihl p hp.2
            simp only [List.length_cons]; omega
      have := this _ _ hp
      omega
    · simp only [hp, Bool.false_eq_true, if_false, Option.map_eq_some'] at h
      obtain ⟨j, hj, rfl⟩ := h
      have := ih j hj
      simp only [List.length_cons]; omega

theorem indexList_isSome_of_hasPrefix (old new : List Char)
    (h : hasPrefix old new = true) : (indexList old new).isSome = true := by
  cases old with
  | nil =>
    cases new with
    | nil => simp [indexList]
    | cons n new => simp [hasPrefix] at h
  | cons d p => simp [indexList, h]

/-- An instance of `old` at the start of `new ++ y` ends in `new`, or `new` is
its beginning. -/
theorem hasPrefix_append_left_cases (new y old : List Char)
    (h : hasPrefix (new ++ y) old = true) :
    old = [] ∨ (∃ c, old.getLast? = some c ∧ c ∈ new) ∨ hasPrefix old new = true := by
  induction new generalizing old with
  | nil => right; right; exact hasPrefix_nil_right old
  | cons n new ih =>
    cases old with
    | nil => left; rfl
    | cons d p =>
      rw [List.cons_append, hasPrefix_cons_cons] at h
      simp only [Bool.and_eq_true, beq_iff_eq] at h
      obtain ⟨rfl, hp⟩ := h
      rcases ih p hp with h1 | ⟨c, hc, hmem⟩ | h3
      · subst h1
        right; left
        exact ⟨n, rfl, List.mem_cons_self _ _⟩
      · right; left
        cases p with
        | nil => simp at hc
        | cons e p =>
          exact ⟨c, by rw [List.getLast?_cons_cons]; exact hc, List.mem_cons_of_mem _ hmem⟩
      · right; right
        rw [hasPrefix_cons_cons]
        simp [h3]

/-- An instance of `old` that starts in `u` and is not within `u` reaches into
`new`: it ends in `new`, or `new` lies within it. -/
theorem hasPrefix_append_cases (u new y old : List Char)
    (h : hasPrefix (u ++ (new ++ y)) old = true) :
    hasPrefix u old = true ∨ (∃ c, old.getLast? = some c ∧ c ∈ new) ∨
      (indexList old new).isSome = true := by
  induction u generalizing old with
  | nil =>
    rw [List.nil_append] at h
    rcases hasPrefix_append_left_cases new y old h with h1 | h2 | h3
    · subst h1; left; rfl
    · right; left; exact h2
    · right; right; exact indexList_isSome_of_hasPrefix old new h3
  | cons c u ih =>
    cases old with
    | nil => left; rfl
    | cons d p =>
      rw [List.cons_append, hasPrefix_cons_cons] at h
      simp only [Bool.and_eq_true] at h
      rcases ih p h.2 with h1 | ⟨c', hc, hmem⟩ | h3
      · left
        rw [hasPrefix_cons_cons]
        simp [h.1, h1]
      · right; left
        cases p with
        | nil => simp at hc
        | cons e p =>
          exact ⟨c', by rw [List.getLast?_cons_cons]; exact hc, hmem⟩
      · right; right
        rw [indexList]
        by_cases hq : hasPrefix (d :: p) new = true
        · simp [hq]
        · simp [hq, h3]

/-- Putting `new` between two lists without an instance of `old` makes no
instance of `old`, when `old` is not empty, its first and its last character do
not occur in `new`, and `new` is not empty and does not occur in `old`, or `old`
is a single character. -/
theorem indexList_join_eq_none (seg new tail old : List Char) (hne : old ≠ [])
    (hfirst : ∀ c, old.head? = some c → c ∉ new)
    (hlast : ∀ c, old.getLast? = some c → c ∉ new)
    (hcase : (new ≠ [] ∧ indexList old new = none) ∨ old.length = 1)
    (hseg : indexList seg old = none) (htail : indexList tail old = none) :
    indexList (seg ++ (new ++ tail)) old = none := by
  obtain ⟨d, p, rfl⟩ : ∃ d p, old = d :: p := by
    cases old with
    | nil => exact absurd rfl hne
    | cons d p => exact ⟨d, p, rfl⟩
  have hd : d ∉ new := hfirst d rfl
  -- no instance starts in `new`
  have hnew : ∀ l, (∀ c ∈ l, c ≠ d) → indexList (l ++ tail) (d :: p) = none := by
    intro l
    induction l with
    | nil => intro _; exact htail
    | cons n l ih =>
      intro hl
      rw [List.cons_append, indexList_cons_eq_none_iff, hasPrefix_cons_cons]
      have hnd : n ≠ d := hl n (List.mem_cons_self _ _)
      exact ⟨by simp [hnd], ih fun c hc => hl c (List.mem_cons_of_mem _ hc)⟩
  have hnewtail : indexList (new ++ tail) (d :: p) = none :=
    hnew new fun c hc hcd => hd (hcd ▸ hc)
  -- the instances of `new` in `old` are excluded in both cases
  have hnotin : new ≠ [] → indexList (d :: p) new = none := by
    intro hnn
    rcases hcase with ⟨_, h⟩ | h
    · exact h
    · have hp : p = [] := by
        cases p with
        | nil => rfl
        | cons e p => simp at h
      subst hp
      cases new with
      | nil => exact absurd rfl hnn
      | cons n new =>
        have hnd : n ≠ d := fun hnd => hd (hnd ▸ List.mem_cons_self _ _)
        have hdn : d ≠ n := fun h => hnd h.symm
        simp [indexList, hasPrefix, hdn]
  induction seg with
  | nil => exact hnewtail
  | cons c seg ih =>
    rw [indexList_cons_eq_none_iff] at hseg
    rw [List.cons_append, indexList_cons_eq_none_iff]
    refine ⟨?_, ih hseg.2⟩
    cases hq : hasPrefix (c :: (seg ++ (new ++ tail))) (d :: p) with
    | false => rfl
    | true =>
      exfalso
      by_cases hnn : new = []
      · -- `new` is empty, so `old` is the single character `d`
        subst hnn
        rcases hcase with ⟨h, _⟩ | h
        · exact h rfl
        · have hp : p = [] := by
            cases p with
            | nil => rfl
            | cons e p => simp at h
          subst hp
          have h1 := hseg.1
          rw [hasPrefix_cons_cons] at h1 hq
          simp only [hasPrefix_nil_right, Bool.and_true] at h1 hq
          rw [h1] at hq
          exact absurd hq (by decide)
      · rcases hasPrefix_append_cases (c :: seg) new tail (d :: p) hq with h1 | ⟨c', hc, hmem⟩ | h3
        · rw [hseg.1] at h1
          exact absurd h1 (by decide)
        · exact hlast c' hc hmem
        · rw [hnotin hnn] at h3
          exact absurd h3 (by decide)

theorem replaceLoop_builder (old new : List Char) (k : Nat) (first : Bool)
    (rest b : List Char) :
    replaceLoop old new k first rest b = b ++ replaceLoop old new k first rest [] := by
  induction k generalizing first rest b with
  | zero => simp [replaceLoop]
  | succ k ih =>
    rw [replaceLoop, replaceLoop]
    rw [ih false _ (b ++ _ ++ new), ih false _ ([] ++ _ ++ new)]
    simp [List.append_assoc]

/-- After all the instances that `Count` finds in `s` are replaced, `old` has no
instance left. -/
theorem indexList_replaceLoop_eq_none (old new : List Char) (hne : old ≠ [])
    (hfirst : ∀ c, old.head? = some c → c ∉ new)
    (hlast : ∀ c, old.getLast? = some c → c ∉ new)
    (hcase : (new ≠ [] ∧ indexList old new = none) ∨ old.length = 1)
    (fuel : Nat) (s : List Char) (first : Bool) (hfuel : s.length < fuel) :
    indexList (replaceLoop old new (countLoop old fuel s) first s []) old = none := by
  induction fuel generalizing s first with
  | zero => exact absurd hfuel (Nat.not_lt_zero _)
  | succ fuel ih =>
    rw [countLoop]
    cases hi : indexList s old with
    | none => simpa [replaceLoop] using hi
    | some i =>
      have hle := indexList_add_length_le s old i hi
      have hpos : 0 < old.length := List.length_pos.2 hne
      have hemp : old.isEmpty = false := by
        cases old with
        | nil => exact absurd rfl hne
        | cons d p => rfl
      simp only []
      rw [replaceLoop]
      simp only [hemp, hi, Option.getD_some, Bool.false_eq_true, if_false]
      rw [replaceLoop_builder]
      have htail := ih (s.drop (i + old.length)) false (by
        rw [List.length_drop]; omega)
      have hseg := indexList_take_eq_none s old i hne hi
      have := indexList_join_eq_none (s.take i) new _ old hne hfirst hlast hcase hseg htail
      simpa [List.append_assoc] using this

theorem indexList_replaceList_eq_none (s old new : List Char) (hne : old ≠ [])
    (hfirst : ∀ c, old.head? = some c → c ∉ new)
    (hlast : ∀ c, old.getLast? = some c → c ∉ new)
    (hcase : (new ≠ [] ∧ indexList old new = none) ∨ old.length = 1) :
    indexList (replaceList s old new (-1)) old = none := by
  have hemp : old.isEmpty = false := by
    cases old with
    | nil => exact absurd rfl hne
    | cons d p => rfl
  have hon : old ≠ new := by
    rintro rfl
    cases old with
    | nil => exact absurd rfl hne
    | cons d p => exact hfirst d rfl (List.mem_cons_self _ _)
  unfold replaceList
  simp only [hon, false_or, show ¬ ((-1 : Int) = 0) by decide, if_false]
  by_cases hm : countList s old = 0
  · simp only [hm, if_true]
    exact (countList_eq_zero_iff s old).1 hm
  · simp only [hm, if_false, show ((-1 : Int) < 0) by decide, true_or, if_true]
    unfold countList
    simp only [hemp, Bool.false_eq_true, if_false]
    exact indexList_replaceLoop_eq_none old new hne hfirst hlast hcase _ s true (Nat.lt_succ_self _)

/-- Under the conditions on `V` and `R`, `V` does not occur in `ReplaceAll(B, V, R)`. -/
theorem not_Contains_ReplaceAll (B V R : String) (hV : V ≠ "")
    (hfirst : ∀ c, V.data.head? = some c → c ∉ R.data)
    (hlast : ∀ c, V.data.getLast? = some c → c ∉ R.data)
    (hcase : (R ≠ "" ∧ Contains V R = false) ∨ V.length = 1) :
    Contains (ReplaceAll B V R) V = false := by
  rw [Contains_eq_false_iff]
  have hne : V.data ≠ [] := fun h => hV (String.ext h)
  have hcase' : (R.data ≠ [] ∧ indexList V.data R.data = none) ∨ V.data.length = 1 := by
    rcases hcase with ⟨hR, hc⟩ | h
    · exact Or.inl ⟨fun h => hR (String.ext h), (Contains_eq_false_iff V R).1 hc⟩
    · exact Or.inr h
  exact indexList_replaceList_eq_none B.data V.data R.data hne hfirst hlast hcase'

/-- C3, amended.  Let `V` be non-empty, let neither its first nor its last
character occur in `R`, and let `R` be non-empty and not occur in `V`, or `V` be
a single character (for which this is the condition that `V` does not occur in
`R`).  Then `V` does not occur in `ReplaceAll(B, V, R)`, the body transformation
is idempotent at every body `B`, and running `updateReleaseBody` a second time
on the release as the first run left it returns `nil`, issues no call and
leaves the release as it is. -/
theorem ReplaceAll_idempotent_of_separate {σ : Type} (client : Client σ)
    (release : RepositoryRelease) (owner repo V R : String) (w : World σ)
    (hV : V ≠ "")
    (hfirst : ∀ c, V.data.head? = some c → c ∉ R.data)
    (hlast : ∀ c, V.data.getLast? = some c → c ∉ R.data)
    (hcase : (R ≠ "" ∧ Contains V R = false) ∨ V.length = 1) :
    Contains (ReplaceAll release.GetBody V R) V = false ∧
    ReplaceAll (ReplaceAll release.GetBody V R) V R = ReplaceAll release.GetBody V R ∧
    (updateReleaseBody client
        (updateReleaseBody client release owner repo V R w).2.1 owner repo V R
        (updateReleaseBody client release owner repo V R w).2.2).1 = none ∧
    (updateReleaseBody client
        (updateReleaseBody client release owner repo V R w).2.1 owner repo V R
        (updateReleaseBody client release owner repo V R w).2.2).2.2.calls =
      (updateReleaseBody client release owner repo V R w).2.2.calls ∧
    (updateReleaseBody client
        (updateReleaseBody client release owner repo V R w).2.1 owner repo V R
        (updateReleaseBody client release owner repo V R w).2.2).2.1 =
      (updateReleaseBody client release owner repo V R w).2.1 := by
  have habsent := not_Contains_ReplaceAll release.GetBody V R hV hfirst hlast hcase
  have hidem := ReplaceAll_of_not_Contains _ _ R habsent
  have hbody : (updateReleaseBody client release owner repo V R w).2.1.GetBody =
      ReplaceAll release.GetBody V R := by
    by_cases hc : ReplaceAll release.GetBody V R = release.GetBody
    · rw [updateReleaseBody_of_unchanged client release owner repo V R w hc, hc]
    · rw [(updateReleaseBody_of_changed client release owner repo V R w hc).1]
      rfl
  have hfix : ReplaceAll (updateReleaseBody client release owner repo V R w).2.1.GetBody V R =
      (updateReleaseBody client release owner repo V R w).2.1.GetBody := by
    rw [hbody]; exact hidem
  refine ⟨habsent, hidem, ?_⟩
  rw [updateReleaseBody_of_unchanged client _ owner repo V R _ hfix]
  exact ⟨rfl, rfl, rfl⟩

/-- C3, witness: replacing `CHANGELOG` by `NOTES` in the release `v1` of the
specification's scenario.  `C` and `G` do not occur in `NOTES`, and `NOTES` does
not occur in `CHANGELOG`. -/
theorem ReplaceAll_idempotent_of_separate_witness :
    Contains (ReplaceAll (mkRelease 1 "v1" "see CHANGELOG").GetBody "CHANGELOG" "NOTES")
      "CHANGELOG" = false ∧
    ReplaceAll (ReplaceAll (mkRelease 1 "v1" "see CHANGELOG").GetBody "CHANGELOG" "NOTES")
        "CHANGELOG" "NOTES" =
      ReplaceAll (mkRelease 1 "v1" "see CHANGELOG").GetBody "CHANGELOG" "NOTES" :=
  have h := ReplaceAll_idempotent_of_separate (memClient 100 [])
    (mkRelease 1 "v1" "see CHANGELOG") "o" "r" "CHANGELOG" "NOTES"
    (startWorld "" [mkRelease 1 "v1" "see CHANGELOG"])
    (by decide)
    (by intro c hc; simp at hc; subst hc; decide)
    (by intro c hc; simp at hc; subst hc; decide)
    (Or.inl ⟨by decide, by decide⟩)
  ⟨h.1, h.2.1⟩

/-! ## `StringPrompt` -/

theorem ReadString_ne_nil (delim : Char) (input : List Char) (h : input ≠ []) :
    (ReadString delim input).1 ≠ [] := by
  cases input with
  | nil => exact absurd rfl h
  | cons c cs =>
    unfold ReadString
    by_cases hc : c = delim <;> simp [hc]

theorem String_mk_ne_empty (l : List Char) (h : l ≠ []) : (⟨l⟩ : String) ≠ "" := by
  intro he
  apply h
  have := congrArg String.data he
  simpa using this

/-- With input left, `StringPrompt` prints the prompt once, reads one line and
returns it trimmed, whatever the line is. -/
theorem StringPrompt_of_input {σ : Type} (prompt : String) (fuel : Nat) (w : World σ)
    (h : w.stdin ≠ []) :
    StringPrompt prompt (fuel + 1) w =
      (.ret (TrimSpace ⟨(ReadString '\n' w.stdin).1⟩),
        { w.Printf (prompt ++ ": ") with stdin := (ReadString '\n' w.stdin).2 }) := by
  have hs : (⟨(ReadString '\n' (w.Printf (prompt ++ ": ")).stdin).1⟩ : String) ≠ "" :=
    String_mk_ne_empty _ (ReadString_ne_nil _ _ h)
  rw [StringPrompt]
  simp only [hs, ne_eq, not_false_eq_true, if_true]
  rfl

/-- At the end of the input `StringPrompt` never returns: every read gives the
empty string and the loop goes on. -/
theorem StringPrompt_of_eof {σ : Type} (prompt : String) (fuel : Nat) (w : World σ)
    (h : w.stdin = []) :
    (StringPrompt prompt fuel w).1 = .hang ∧
    (StringPrompt prompt fuel w).2.stdout = w.stdout ++ List.replicate fuel (prompt ++ ": ") := by
  induction fuel generalizing w with
  | zero => simp [StringPrompt]
  | succ n ih =>
    rw [StringPrompt]
    have hs : ¬ ((⟨(ReadString '\n' (w.Printf (prompt ++ ": ")).stdin).1⟩ : String) ≠ "") := by
      simp [World.Printf, h, ReadString]
    simp only [hs, if_false]
    have := ih { w.Printf (prompt ++ ": ") with
      stdin := (ReadString '\n' (w.Printf (prompt ++ ": ")).stdin).2 }
      (by simp [World.Printf, h, ReadString])
    refine ⟨this.1, ?_⟩
    rw [this.2]
    simp [World.Printf, List.replicate_succ]

theorem StringPrompt_calls {σ : Type} (prompt : String) (fuel : Nat) (w : World σ) :
    (StringPrompt prompt fuel w).2.calls = w.calls ∧
    (StringPrompt prompt fuel w).2.remote = w.remote := by
  induction fuel generalizing w with
  | zero => simp [StringPrompt]
  | succ n ih =>
    rw [StringPrompt]
    by_cases hs : (⟨(ReadString '\n' (w.Printf (prompt ++ ": ")).stdin).1⟩ : String) ≠ ""
    · simp only [hs, ne_eq, not_false_eq_true, if_true]
      exact ⟨rfl, rfl⟩
    · simp only [hs, if_false]
      exact ih _

/-- C10, at the failing input: on the input lines `""` and `"y"` the gate does
not prompt again after the empty line.  `ReadString` returns `"\n"`, which is
not the empty string, so the loop ends after one prompt with the response `""`,
the line `"y"` stays unread, and `run` declines: it returns `nil` without any
network call. -/
theorem StringPrompt_empty_line_declines :
    (StringPrompt "Are you sure you want to update all releases? (y/n)" 3
        (startWorld "\ny\n" ())).1 = .ret "" ∧
    (StringPrompt "Are you sure you want to update all releases? (y/n)" 3
        (startWorld "\ny\n" ())).2.stdout =
      ["Are you sure you want to update all releases? (y/n): "] ∧
    (StringPrompt "Are you sure you want to update all releases? (y/n)" 3
        (startWorld "\ny\n" ())).2.stdin = "y\n".data ∧
    (run (fun _ => memClient 100 []) (batchFlags "CHANGELOG" "NOTES") 3
        (startWorld "\ny\n" [mkRelease 1 "v1" "see CHANGELOG"])).1 = .ret none ∧
    (run (fun _ => memClient 100 []) (batchFlags "CHANGELOG" "NOTES") 3
        (startWorld "\ny\n" [mkRelease 1 "v1" "see CHANGELOG"])).2.calls = [] := by
  decide

/-! ## `run`: validation and the confirmation gate -/

theorem runAll_of_declined {σ : Type} (NewClient : String → Client σ) (ctx : Flags)
    (fuel : Nat) (w : World σ) (hin : w.stdin ≠ [])
    (hno : TrimSpace ⟨(ReadString '\n' w.stdin).1⟩ ≠ "y") :
    runAll NewClient ctx (fuel + 1) w =
      (some (.ret none),
        World.Println { w.Printf ("Are you sure you want to update all releases? (y/n)" ++ ": ")
          with stdin := (ReadString '\n' w.stdin).2 } "Invalid response, aborting") := by
  unfold runAll
  rw [StringPrompt_of_input _ fuel w hin]
  simp only [hno, ne_eq, not_false_eq_true, if_true]

theorem runTag_of_declined {σ : Type} (NewClient : String → Client σ) (ctx : Flags)
    (fuel : Nat) (w : World σ) (hin : w.stdin ≠ [])
    (hno : TrimSpace ⟨(ReadString '\n' w.stdin).1⟩ ≠ "y") :
    runTag NewClient ctx (fuel + 1) w =
      (.ret none,
        World.Println { w.Printf (("Are you sure you want to update release " ++ ctx.release ++
          "? (y/n)") ++ ": ") with stdin := (ReadString '\n' w.stdin).2 }
          "Invalid response, aborting") := by
  unfold runTag
  rw [StringPrompt_of_input _ fuel w hin]
  simp only [hno, ne_eq, not_false_eq_true, if_true]

/-- C4. In a valid invocation, batch or single, with a line to read on standard
input: when the response, the line read and trimmed, is anything other than
`"y"`, `run` returns `nil` and issues no network call at all; the remote state
is untouched, whatever it holds. -/
theorem run_declined_no_calls {σ : Type} (NewClient : String → Client σ) (ctx : Flags)
    (fuel : Nat) (w : World σ)
    (hvalid : (ctx.all = true ∧ ctx.release = "") ∨ (ctx.all = false ∧ ctx.release ≠ ""))
    (hfuel : 0 < fuel) (hin : w.stdin ≠ [])
    (hno : TrimSpace ⟨(ReadString '\n' w.stdin).1⟩ ≠ "y") :
    (run NewClient ctx fuel w).1 = .ret none ∧
    (run NewClient ctx fuel w).2.calls = w.calls ∧
    (run NewClient ctx fuel w).2.remote = w.remote := by
  obtain ⟨n, rfl⟩ : ∃ n, fuel = n + 1 := ⟨fuel - 1, by omega⟩
  rcases hvalid with ⟨hall, htag⟩ | ⟨hall, htag⟩
  · unfold run
    simp only [hall, htag, runAll_of_declined NewClient ctx n w hin hno]
    simp [World.Println, World.Printf]
  · unfold run
    simp only [hall, htag]
    simp [htag, runTag_of_declined NewClient ctx n w hin hno, World.Println, World.Printf]

/-- C4, witness: batch mode over a repository with a matching release, answer `n`. -/
theorem run_declined_no_calls_witness :
    (run (fun _ => memClient 100 []) (batchFlags "CHANGELOG" "NOTES") 1
        (startWorld "n\n" [mkRelease 1 "v1" "see CHANGELOG"])).1 = .ret none ∧
    (run (fun _ => memClient 100 []) (batchFlags "CHANGELOG" "NOTES") 1
        (startWorld "n\n" [mkRelease 1 "v1" "see CHANGELOG"])).2.calls = [] ∧
    (run (fun _ => memClient 100 []) (batchFlags "CHANGELOG" "NOTES") 1
        (startWorld "n\n" [mkRelease 1 "v1" "see CHANGELOG"])).2.remote =
      [mkRelease 1 "v1" "see CHANGELOG"] :=
  run_declined_no_calls (fun _ => memClient 100 []) (batchFlags "CHANGELOG" "NOTES") 1
    (startWorld "n\n" [mkRelease 1 "v1" "see CHANGELOG"])
    (Or.inl ⟨rfl, rfl⟩) (by decide) (by decide) (by decide)

/-! ### The errors of the fetch and write paths are not usage errors -/

theorem not_usage_of_mem_colon (e : GoError) (h : ':' ∈ e.Error.data) : ¬ IsUsageError e := by
  rintro (hu | hu) <;> (rw [hu] at h; revert h; decide)

theorem not_usage_of_head_r (e : GoError) (h : e.Error.data.head? = some 'r') :
    ¬ IsUsageError e := by
  rintro (hu | hu) <;> (rw [hu] at h; revert h; decide)

theorem getRelease_error_not_usage {σ : Type} (client : Client σ) (owner repo tag : String)
    (w : World σ) (e : GoError)
    (h : (getRelease client owner repo tag w).1 = .ret (.error e)) : ¬ IsUsageError e := by
  unfold getRelease at h
  dsimp only at h
  split at h
  · simp at h
  · split at h
    · simp only [Outcome.ret.injEq, Except.error.injEq] at h
      subst h
      exact not_usage_of_head_r _ (by simp [GoError.Error])
    · simp only [Outcome.ret.injEq, Except.error.injEq] at h
      subst h
      exact not_usage_of_mem_colon _ (by simp [GoError.Error])
  · simp at h

theorem getAllReleasesLoop_error_not_usage {σ : Type} (client : Client σ) (owner repo : String)
    (fuel : Nat) (opts : ListOptions) (acc : List RepositoryRelease) (w : World σ) (e : GoError)
    (h : (getAllReleasesLoop client owner repo fuel opts acc w).1 = .ret (.error e)) :
    ¬ IsUsageError e := by
  induction fuel generalizing opts acc w with
  | zero => simp [getAllReleasesLoop] at h
  | succ n ih =>
    rw [getAllReleasesLoop] at h
    split at h
    · simp at h
    · split at h
      · simp only [Outcome.ret.injEq, Except.error.injEq] at h
        subst h
        exact not_usage_of_head_r _ (by simp [GoError.Error])
      · simp only [Outcome.ret.injEq, Except.error.injEq] at h
        subst h
        exact not_usage_of_mem_colon _ (by simp [GoError.Error])
    · split at h
      · simp at h
      · exact ih _ _ _ h

theorem updateReleaseBody_error_not_usage {σ : Type} (client : Client σ)
    (release : RepositoryRelease) (owner repo value replacement : String) (w : World σ)
    (e : GoError)
    (h : (updateReleaseBody client release owner repo value replacement w).1 = some e) :
    ¬ IsUsageError e := by
  unfold updateReleaseBody at h
  dsimp only at h
  split at h
  · simp at h
  · split at h
    · simp only [Option.some.injEq] at h
      subst h
      exact not_usage_of_mem_colon _ (by simp [GoError.Error])
    · simp at h

theorem updateAll_error_not_usage {σ : Type} (client : Client σ)
    (owner repo value replacement : String) (releases : List RepositoryRelease) (w : World σ)
    (e : GoError)
    (h : (updateAll client owner repo value replacement releases w).1 = some e) :
    ¬ IsUsageError e := by
  induction releases generalizing w with
  | nil => simp [updateAll] at h
  | cons r rest ih =>
    rw [updateAll] at h
    split at h
    · next err _ w2 heq =>
      simp only [Option.some.injEq] at h
      subst h
      exact updateReleaseBody_error_not_usage client r owner repo value replacement _ err
        (by rw [heq])
    · exact ih _ h

theorem runAll_error_not_usage {σ : Type} (NewClient : String → Client σ) (ctx : Flags)
    (fuel : Nat) (w : World σ) (e : GoError)
    (h : (runAll NewClient ctx fuel w).1 = some (.ret (some e))) : ¬ IsUsageError e := by
  unfold runAll at h
  split at h
  · simp at h
  · simp at h
  · split at h
    · simp at h
    · dsimp only at h
      split at h
      · simp at h
      · simp at h
      · next err w3 heq =>
        simp only [Option.some.injEq, Outcome.ret.injEq] at h
        subst h
        exact getAllReleasesLoop_error_not_usage (NewClient ctx.token) ctx.owner ctx.repo fuel _ _
          _ err (by unfold getAllReleases at heq; rw [heq])
      · split at h
        · next err w4 heq =>
          simp only [Option.some.injEq, Outcome.ret.injEq] at h
          subst h
          exact updateAll_error_not_usage _ _ _ _ _ _ _ err (by rw [heq])
        · simp at h

theorem runTag_error_not_usage {σ : Type} (NewClient : String → Client σ) (ctx : Flags)
    (fuel : Nat) (w : World σ) (e : GoError)
    (h : (runTag NewClient ctx fuel w).1 = .ret (some e)) : ¬ IsUsageError e := by
  unfold runTag at h
  split at h
  · simp at h
  · simp at h
  · split at h
    · simp at h
    · dsimp only at h
      split at h
      · simp at h
      · simp at h
      · next err w2 heq =>
        simp only [Outcome.ret.injEq, Option.some.injEq] at h
        subst h
        exact getRelease_error_not_usage _ _ _ _ _ err (by rw [heq])
      · simp only [Outcome.ret.injEq] at h
        exact updateReleaseBody_error_not_usage _ _ _ _ _ _ _ e h

/-- C1. When `--all` is set and the `--release` tag is non-empty, or `--all` is
unset and the tag is empty, `run` returns a usage error and leaves the world as
it found it: nothing is printed (no confirmation prompt), nothing is read and
no fetch or write call is issued.  In every other flag combination an error
that `run` returns is not a usage error. -/
theorem run_usage_error_iff_invalid_flags {σ : Type} (NewClient : String → Client σ)
    (ctx : Flags) (fuel : Nat) (w : World σ) :
    (((ctx.all = true ∧ ctx.release ≠ "") ∨ (ctx.all = false ∧ ctx.release = "")) →
      ∃ e, run NewClient ctx fuel w = (.ret (some e), w) ∧ IsUsageError e) ∧
    (¬ ((ctx.all = true ∧ ctx.release ≠ "") ∨ (ctx.all = false ∧ ctx.release = "")) →
      ∀ e, (run NewClient ctx fuel w).1 = .ret (some e) → ¬ IsUsageError e) := by
  constructor
  · rintro (hboth | hnone)
    · refine ⟨.errorString "cannot specify both --all and --release", ?_, Or.inl rfl⟩
      unfold run
      rw [if_pos hboth]
    · refine ⟨.errorString "must specify either --all or --release", ?_, Or.inr rfl⟩
      have hnb : ¬ (ctx.all = true ∧ ctx.release ≠ "") := by
        rintro ⟨ha, _⟩
        rw [hnone.1] at ha
        exact absurd ha (by decide)
      unfold run
      rw [if_neg hnb, if_pos hnone]
  · intro hvalid e h
    have hnb : ¬ (ctx.all = true ∧ ctx.release ≠ "") := fun hb => hvalid (Or.inl hb)
    have hnn : ¬ (ctx.all = false ∧ ctx.release = "") := fun hn => hvalid (Or.inr hn)
    unfold run at h
    rw [if_neg hnb, if_neg hnn] at h
    split at h
    · next o w1 heq =>
      by_cases hall : ctx.all = true
      · rw [if_pos hall] at heq
        simp only at h
        subst h
        exact runAll_error_not_usage NewClient ctx fuel w e (by rw [heq])
      · rw [if_neg hall] at heq
        simp at heq
    · next w1 heq =>
      split at h
      · exact runTag_error_not_usage NewClient ctx fuel w1 e h
      · simp at h

/-- C1, witness: with `--all` and `--release v1` together `run` returns a usage
error and the world is as before, the answer `y` still unread. -/
theorem run_usage_error_iff_invalid_flags_witness :
    ∃ e, run (fun _ => memClient 100 [])
        { owner := "o", repo := "r", value := "CHANGELOG", replacement := "NOTES",
          token := "t", all := true, release := "v1" } 1
        (startWorld "y\n" [mkRelease 1 "v1" "see CHANGELOG"]) =
      (.ret (some e), startWorld "y\n" [mkRelease 1 "v1" "see CHANGELOG"]) ∧
      IsUsageError e :=
  (run_usage_error_iff_invalid_flags (fun _ => memClient 100 [])
    { owner := "o", repo := "r", value := "CHANGELOG", replacement := "NOTES",
      token := "t", all := true, release := "v1" } 1
    (startWorld "y\n" [mkRelease 1 "v1" "see CHANGELOG"])).1 (Or.inl ⟨rfl, by decide⟩)

/-! ## `getRelease` -/

theorem hasPrefix_append_self (t q : List Char) : hasPrefix (t ++ q) t = true := by
  induction t with
  | nil => cases q <;> rfl
  | cons c t ih => simp [hasPrefix, ih]

theorem indexList_append_isSome (p t q : List Char) :
    (indexList (p ++ (t ++ q)) t).isSome = true := by
  induction p with
  | nil =>
    cases h : t ++ q with
    | nil =>
      have ht : t = [] := (List.append_eq_nil.1 h).1
      simp [indexList, ht]
    | cons c rest =>
      have hp := hasPrefix_append_self t q
      rw [h] at hp
      simp [indexList, hp]
  | cons c p ih =>
    rw [List.cons_append, indexList]
    by_cases hp : hasPrefix (c :: (p ++ (t ++ q))) t = true
    · simp [hp]
    · simp [hp, ih]

/-- A string contains each of the pieces it is put together from. -/
theorem Contains_append (p t q : String) : Contains (p ++ t ++ q) t = true := by
  have h := indexList_append_isSome p.data t.data q.data
  unfold Contains Index
  rw [String.data_append, String.data_append, List.append_assoc]
  cases hi : indexList (p.data ++ (t.data ++ q.data)) t.data with
  | none => rw [hi] at h; exact absurd h (by decide)
  | some i => simp

theorem getRelease_of_not_found {σ : Type} (client : Client σ) (owner repo tag : String)
    (w : World σ) (resp : Response) (err : GoError) (s : σ)
    (hreply : client.GetReleaseByTag w.remote owner repo tag = (.failure (some resp) err, s))
    (h404 : resp.StatusCode = 404) :
    getRelease client owner repo tag w =
      (.ret (.error (.errorString ("release " ++ tag ++ " not found"))),
        { w with calls := w.calls ++ [Call.GetReleaseByTag owner repo tag], remote := s }) := by
  unfold getRelease
  simp only [hreply, h404, if_true]

/-- C7. When the get-release-by-tag call fails with HTTP status 404,
`getRelease` returns no release and the error `release <t> not found`, whose
text contains both the tag and `not found`; single-mode `run`, once confirmed
with `y`, returns that error and has issued the one fetch call and no write
call.  When the call succeeds `getRelease` returns the fetched release and no
error. -/
theorem getRelease_not_found_or_fetched {σ : Type} (client : Client σ)
    (owner repo tag : String) (w : World σ) :
    (∀ resp err s, client.GetReleaseByTag w.remote owner repo tag = (.failure (some resp) err, s) →
      resp.StatusCode = 404 →
        (getRelease client owner repo tag w).1 =
          .ret (.error (.errorString ("release " ++ tag ++ " not found"))) ∧
        Contains ("release " ++ tag ++ " not found") tag = true ∧
        Contains ("release " ++ tag ++ " not found") "not found" = true) ∧
    (∀ (NewClient : String → Client σ) (ctx : Flags) (fuel : Nat) (w0 : World σ) resp err s,
      ctx.all = false → ctx.release = tag → tag ≠ "" →
      StringPrompt ("Are you sure you want to update release " ++ tag ++ "? (y/n)") fuel w =
        (.ret "y", w0) →
      (NewClient ctx.token).GetReleaseByTag w0.remote ctx.owner ctx.repo tag =
        (.failure (some resp) err, s) →
      resp.StatusCode = 404 →
        (run NewClient ctx fuel w).1 =
          .ret (some (.errorString ("release " ++ tag ++ " not found"))) ∧
        (run NewClient ctx fuel w).2.calls =
          w.calls ++ [Call.GetReleaseByTag ctx.owner ctx.repo tag]) ∧
    (∀ release resp s, client.GetReleaseByTag w.remote owner repo tag = (.success release resp, s) →
      (getRelease client owner repo tag w).1 = .ret (.ok release)) := by
  refine ⟨?_, ?_, ?_⟩
  · intro resp err s hreply h404
    rw [getRelease_of_not_found client owner repo tag w resp err s hreply h404]
    refine ⟨rfl, Contains_append _ _ _, ?_⟩
    have := Contains_append ("release " ++ tag ++ " ") "not found" ""
    simpa [String.append_assoc] using this
  · intro NewClient ctx fuel w0 resp err s hall htag hne hprompt hreply h404
    have hcalls := (StringPrompt_calls
      ("Are you sure you want to update release " ++ tag ++ "? (y/n)") fuel w).1
    rw [hprompt] at hcalls
    have hnb : ¬ (ctx.all = true ∧ ctx.release ≠ "") := by simp [hall]
    have hnn : ¬ (ctx.all = false ∧ ctx.release = "") := by simp [htag, hne]
    unfold run
    rw [if_neg hnb, if_neg hnn]
    simp only [hall, Bool.false_eq_true, if_false, htag]
    have hne' : (tag ≠ "") = True := by simp [hne]
    simp only [hne', if_true]
    unfold runTag
    simp only [htag, hprompt, ne_eq, not_true_eq_false, if_false]
    rw [getRelease_of_not_found (NewClient ctx.token) ctx.owner ctx.repo tag w0 resp err s
      hreply h404]
    simp only at hcalls
    simp [hcalls]
  · intro release resp s hreply
    unfold getRelease
    simp only [hreply]

/-- C7, witness: `--release v9` on a repository that only has `v1`. -/
theorem getRelease_not_found_or_fetched_witness :
    (run (fun _ => memClient 100 []) (singleFlags "v9" "CHANGELOG" "NOTES") 1
        (startWorld "y\n" [mkRelease 1 "v1" "see CHANGELOG"])).1 =
      .ret (some (.errorString ("release " ++ "v9" ++ " not found"))) ∧
    (run (fun _ => memClient 100 []) (singleFlags "v9" "CHANGELOG" "NOTES") 1
        (startWorld "y\n" [mkRelease 1 "v1" "see CHANGELOG"])).2.calls =
      [] ++ [Call.GetReleaseByTag "o" "r" "v9"] :=
  (getRelease_not_found_or_fetched (memClient 100 []) "o" "r" "v9"
      (startWorld "y\n" [mkRelease 1 "v1" "see CHANGELOG"])).2.1
    (fun _ => memClient 100 []) (singleFlags "v9" "CHANGELOG" "NOTES") 1
    { stdin := [], stdout := ["Are you sure you want to update release v9? (y/n): "],
      calls := [], remote := [mkRelease 1 "v1" "see CHANGELOG"] }
    { StatusCode := 404, NextPage := 0 } (.errorString "404 Not Found")
    [mkRelease 1 "v1" "see CHANGELOG"] rfl rfl (by decide) rfl rfl rfl

/-- C8, the defect: when a fetch call fails and the client hands back no HTTP
response, `getRelease` and `getAllReleases` read `resp.StatusCode` on the `nil`
response and panic; no error value is returned. -/
theorem fetch_panics_without_response {σ : Type} (client : Client σ) (owner repo tag : String)
    (fuel : Nat) (w : World σ) :
    (∀ err s, client.GetReleaseByTag w.remote owner repo tag = (.failure none err, s) →
      (getRelease client owner repo tag w).1 = .panic) ∧
    (∀ err s, client.ListReleases w.remote owner repo { Page := 0, PerPage := 100 } =
        (.failure none err, s) →
      (getAllReleases client owner repo (fuel + 1) w).1 = .panic) := by
  constructor
  · intro err s hreply
    unfold getRelease
    simp only [hreply]
  · intro err s hreply
    unfold getAllReleases
    rw [getAllReleasesLoop]
    simp only [hreply]

/-- C8, at the failing input: without network both fetch functions panic, and
so does `run` after the confirmation, in single and in batch mode. -/
theorem fetch_panics_without_response_offline :
    (getRelease offlineClient "o" "r" "v1" (startWorld "" ())).1 = .panic ∧
    (getAllReleases offlineClient "o" "r" 1 (startWorld "" ())).1 = .panic ∧
    (run (fun _ => offlineClient) (singleFlags "v1" "a" "b") 1 (startWorld "y\n" ())).1 = .panic ∧
    (run (fun _ => offlineClient) (batchFlags "a" "b") 1 (startWorld "y\n" ())).1 = .panic :=
  ⟨(fetch_panics_without_response offlineClient "o" "r" "v1" 0 (startWorld "" ())).1 _ _ rfl,
   (fetch_panics_without_response offlineClient "o" "r" "v1" 0 (startWorld "" ())).2 _ _ rfl,
   by decide, by decide⟩

/-! ## The batch loop -/

theorem writesOf_nil (owner repo V R : String) : writesOf owner repo V R [] = [] := rfl

theorem writesOf_cons_of_unchanged (owner repo V R : String) (r : RepositoryRelease)
    (rest : List RepositoryRelease) (h : ReplaceAll r.GetBody V R = r.GetBody) :
    writesOf owner repo V R (r :: rest) = writesOf owner repo V R rest := by
  simp [writesOf, List.filterMap_cons, h]

theorem writesOf_cons_of_changed (owner repo V R : String) (r : RepositoryRelease)
    (rest : List RepositoryRelease) (h : ReplaceAll r.GetBody V R ≠ r.GetBody) :
    writesOf owner repo V R (r :: rest) =
      Call.EditRelease owner repo r.GetID { r with Body := some (ReplaceAll r.GetBody V R) } ::
        writesOf owner repo V R rest := by
  simp [writesOf, List.filterMap_cons, h]

theorem writesOf_append (owner repo V R : String) (l₁ l₂ : List RepositoryRelease) :
    writesOf owner repo V R (l₁ ++ l₂) = writesOf owner repo V R l₁ ++ writesOf owner repo V R l₂ := by
  simp [writesOf, List.filterMap_append]

theorem writesOf_all_isWrite (owner repo V R : String) (l : List RepositoryRelease) :
    (writesOf owner repo V R l).filter Call.isWrite = writesOf owner repo V R l := by
  induction l with
  | nil => rfl
  | cons r rest ih =>
    by_cases h : ReplaceAll r.GetBody V R = r.GetBody
    · rw [writesOf_cons_of_unchanged _ _ _ _ _ _ h, ih]
    · rw [writesOf_cons_of_changed _ _ _ _ _ _ h, List.filter_cons_of_pos (by rfl), ih]

/-- One round of the batch loop on a release whose body does not change. -/
theorem updateAll_cons_of_unchanged {σ : Type} (client : Client σ)
    (owner repo V R : String) (r : RepositoryRelease) (rest : List RepositoryRelease)
    (w : World σ) (h : ReplaceAll r.GetBody V R = r.GetBody) :
    updateAll client owner repo V R (r :: rest) w =
      updateAll client owner repo V R rest
        ((w.Printf (r.GetTagName ++ ": Checking for updates to release body\n")).Printf
          (r.GetTagName ++ ": No changes to release body found, skipping\n")) := by
  rw [updateAll, updateReleaseBody_of_unchanged client r owner repo V R _ h]

/-- When the loop runs to its end, the calls it has issued are the edits of the
releases whose body changes, in listing order. -/
theorem updateAll_calls_of_success {σ : Type} (client : Client σ)
    (owner repo V R : String) (releases : List RepositoryRelease) (w : World σ)
    (h : (updateAll client owner repo V R releases w).1 = none) :
    (updateAll client owner repo V R releases w).2.calls =
      w.calls ++ writesOf owner repo V R releases := by
  induction releases generalizing w with
  | nil => simp [updateAll, writesOf_nil]
  | cons r rest ih =>
    by_cases hc : ReplaceAll r.GetBody V R = r.GetBody
    · rw [updateAll_cons_of_unchanged client owner repo V R r rest w hc] at h ⊢
      rw [ih _ h, writesOf_cons_of_unchanged _ _ _ _ _ _ hc]
      rfl
    · have hch := updateReleaseBody_of_changed client r owner repo V R
        (w.Printf (r.GetTagName ++ ": Checking for updates to release body\n")) hc
      rw [updateAll] at h ⊢
      split at h
      · simp at h
      · next r' w2 heq =>
        simp only [heq] at hch ⊢
        rw [ih _ h, hch.2.1, writesOf_cons_of_changed _ _ _ _ _ _ hc]
        simp [World.Printf]

/-- The loop over `pre ++ rest`, when it runs through `pre`, goes on with `rest`. -/
theorem updateAll_append_of_success {σ : Type} (client : Client σ)
    (owner repo V R : String) (pre rest : List RepositoryRelease) (w : World σ)
    (h : (updateAll client owner repo V R pre w).1 = none) :
    updateAll client owner repo V R (pre ++ rest) w =
      updateAll client owner repo V R rest (updateAll client owner repo V R pre w).2 := by
  induction pre generalizing w with
  | nil => simp [updateAll]
  | cons r pre ih =>
    rw [List.cons_append, updateAll]
    rw [updateAll] at h
    split at h
    · simp at h
    · next r' w2 heq =>
      rw [ih _ h]
      congr 1
      rw [updateAll, heq]

/-- The loop stops at a release whose write fails: the error carries the tag
name, and the failed edit is the last call. -/
theorem updateAll_cons_of_failure {σ : Type} (client : Client σ)
    (owner repo V R : String) (r : RepositoryRelease) (rest : List RepositoryRelease)
    (w : World σ) (e : GoError) (hc : ReplaceAll r.GetBody V R ≠ r.GetBody)
    (hfail : (client.EditRelease w.remote owner repo r.GetID
      { r with Body := some (ReplaceAll r.GetBody V R) }).1 = some e) :
    (updateAll client owner repo V R (r :: rest) w).1 =
      some (.wrapError (r.GetTagName ++ ": failed to update release body: " ++ e.Error) e) ∧
    (updateAll client owner repo V R (r :: rest) w).2.calls =
      w.calls ++ [Call.EditRelease owner repo r.GetID
        { r with Body := some (ReplaceAll r.GetBody V R) }] := by
  have hch := updateReleaseBody_of_changed client r owner repo V R
    (w.Printf (r.GetTagName ++ ": Checking for updates to release body\n")) hc
  have hfail' : (client.EditRelease
      (w.Printf (r.GetTagName ++ ": Checking for updates to release body\n")).remote owner repo
      r.GetID { r with Body := some (ReplaceAll r.GetBody V R) }).1 = some e := hfail
  rw [hfail'] at hch
  rw [updateAll]
  split
  · next err r' w2 heq =>
    simp only [heq] at hch
    simp only [Option.map_some', Option.some.injEq] at hch
    exact ⟨by rw [hch.2.2], by rw [hch.2.1]; rfl⟩
  · next r' w2 heq =>
    simp only [heq] at hch
    simp at hch

theorem updateAll_of_writes_succeed {σ : Type} (client : Client σ)
    (owner repo V R : String) (releases : List RepositoryRelease) (w : World σ)
    (hok : ∀ s o r id rel, (client.EditRelease s o r id rel).1 = none) :
    (updateAll client owner repo V R releases w).1 = none := by
  induction releases generalizing w with
  | nil => rfl
  | cons r rest ih =>
    rw [updateAll]
    split
    · next err r' w2 heq =>
      exfalso
      by_cases hc : ReplaceAll r.GetBody V R = r.GetBody
      · rw [updateReleaseBody_of_unchanged client r owner repo V R _ hc] at heq
        simp at heq
      · have := (updateReleaseBody_of_changed client r owner repo V R
          (w.Printf (r.GetTagName ++ ": Checking for updates to release body\n")) hc).2.2
        rw [heq, hok] at this
        simp at this
    · exact ih _

/-! ## `run` in batch mode -/

/-- Listing issues fetch calls only: the write calls of the world stay as they are. -/
theorem getAllReleasesLoop_writes {σ : Type} (client : Client σ) (owner repo : String)
    (fuel : Nat) (opts : ListOptions) (acc : List RepositoryRelease) (w : World σ) :
    (getAllReleasesLoop client owner repo fuel opts acc w).2.calls.filter Call.isWrite =
      w.calls.filter Call.isWrite := by
  induction fuel generalizing opts acc w with
  | zero => simp [getAllReleasesLoop]
  | succ n ih =>
    rw [getAllReleasesLoop]
    split
    · simp [Call.isWrite]
    · split <;> simp [Call.isWrite]
    · split
      · simp [Call.isWrite]
      · rw [ih]
        simp [Call.isWrite]

/-- Batch mode after the answer `y` and a successful listing: `run` returns
what the loop over the fetched releases gives. -/
theorem run_batch_of_fetched {σ : Type} (NewClient : String → Client σ) (ctx : Flags)
    (fuel : Nat) (w w0 w1 : World σ) (releases : List RepositoryRelease)
    (hall : ctx.all = true) (htag : ctx.release = "")
    (hprompt : StringPrompt "Are you sure you want to update all releases? (y/n)" fuel w =
      (.ret "y", w0))
    (hfetch : getAllReleases (NewClient ctx.token) ctx.owner ctx.repo fuel
      (w0.Println "Fetching all releases") = (.ret (.ok releases), w1)) :
    (run NewClient ctx fuel w).1 =
      .ret (updateAll (NewClient ctx.token) ctx.owner ctx.repo ctx.value ctx.replacement
        releases w1).1 ∧
    (run NewClient ctx fuel w).2 =
      (updateAll (NewClient ctx.token) ctx.owner ctx.repo ctx.value ctx.replacement
        releases w1).2 := by
  have hnb : ¬ (ctx.all = true ∧ ctx.release ≠ "") := by simp [htag]
  have hnn : ¬ (ctx.all = false ∧ ctx.release = "") := by simp [hall]
  unfold run
  rw [if_neg hnb, if_neg hnn]
  simp only [hall, if_true]
  unfold runAll
  simp only [hprompt, ne_eq, not_true_eq_false, if_false, hfetch]
  cases hu : updateAll (NewClient ctx.token) ctx.owner ctx.repo ctx.value ctx.replacement
      releases w1 with
  | mk err w4 =>
    cases err with
    | none => simp [htag]
    | some e => simp

/-- C5. In batch mode over the fetched releases `pre ++ rk :: post`, processed
in listing order: when the writes for `pre` succeed and the write for `rk` is
the first to fail, `run` returns an error whose text starts with `rk`'s tag
name; the calls after the listing are the edits of the changed releases of
`pre`, as in a run without the failure, followed by the failed edit of `rk`,
and nothing for `post`.  A run without the failure would go on with the edits
of `post` after these. -/
theorem run_batch_stops_at_first_failure {σ : Type} (NewClient : String → Client σ)
    (ctx : Flags) (fuel : Nat) (w w0 w1 : World σ) (pre post : List RepositoryRelease)
    (rk : RepositoryRelease) (e : GoError)
    (hall : ctx.all = true) (htag : ctx.release = "")
    (hprompt : StringPrompt "Are you sure you want to update all releases? (y/n)" fuel w =
      (.ret "y", w0))
    (hfetch : getAllReleases (NewClient ctx.token) ctx.owner ctx.repo fuel
      (w0.Println "Fetching all releases") = (.ret (.ok (pre ++ rk :: post)), w1))
    (hpre : (updateAll (NewClient ctx.token) ctx.owner ctx.repo ctx.value ctx.replacement
      pre w1).1 = none)
    (hchanged : ReplaceAll rk.GetBody ctx.value ctx.replacement ≠ rk.GetBody)
    (hfail : ((NewClient ctx.token).EditRelease
      (updateAll (NewClient ctx.token) ctx.owner ctx.repo ctx.value ctx.replacement
        pre w1).2.remote ctx.owner ctx.repo rk.GetID
      { rk with Body := some (ReplaceAll rk.GetBody ctx.value ctx.replacement) }).1 = some e) :
    (run NewClient ctx fuel w).1 =
      .ret (some (.wrapError
        (rk.GetTagName ++ ": failed to update release body: " ++ e.Error) e)) ∧
    (run NewClient ctx fuel w).2.calls =
      w1.calls ++ writesOf ctx.owner ctx.repo ctx.value ctx.replacement pre ++
        [Call.EditRelease ctx.owner ctx.repo rk.GetID
          { rk with Body := some (ReplaceAll rk.GetBody ctx.value ctx.replacement) }] ∧
    writesOf ctx.owner ctx.repo ctx.value ctx.replacement (pre ++ rk :: post) =
      writesOf ctx.owner ctx.repo ctx.value ctx.replacement pre ++
        [Call.EditRelease ctx.owner ctx.repo rk.GetID
          { rk with Body := some (ReplaceAll rk.GetBody ctx.value ctx.replacement) }] ++
        writesOf ctx.owner ctx.repo ctx.value ctx.replacement post := by
  have hrun := run_batch_of_fetched NewClient ctx fuel w w0 w1 (pre ++ rk :: post) hall htag
    hprompt hfetch
  have happ := updateAll_append_of_success (NewClient ctx.token) ctx.owner ctx.repo ctx.value
    ctx.replacement pre (rk :: post) w1 hpre
  have hstop := updateAll_cons_of_failure (NewClient ctx.token) ctx.owner ctx.repo ctx.value
    ctx.replacement rk post _ e hchanged hfail
  have hcalls := updateAll_calls_of_success (NewClient ctx.token) ctx.owner ctx.repo ctx.value
    ctx.replacement pre w1 hpre
  refine ⟨?_, ?_, ?_⟩
  · rw [hrun.1, happ, hstop.1]
  · rw [hrun.2, happ, hstop.2, hcalls]
  · rw [writesOf_append, writesOf_cons_of_changed _ _ _ _ _ _ hchanged]
    simp

/-- C5, witness: three releases, the write of the second fails.  The first is
written, the second is tried, the third is not. -/
theorem run_batch_stops_at_first_failure_witness :
    (run (fun _ => memClient 100 [2]) (batchFlags "CHANGELOG" "NOTES") 1
        (startWorld "y\n" [mkRelease 1 "v1" "see CHANGELOG", mkRelease 2 "v2" "CHANGELOG too",
          mkRelease 3 "v3" "a CHANGELOG"])).1 =
      .ret (some (.wrapError ("v2" ++ ": failed to update release body: " ++
        "500 Internal Server Error") (.errorString "500 Internal Server Error"))) ∧
    (run (fun _ => memClient 100 [2]) (batchFlags "CHANGELOG" "NOTES") 1
        (startWorld "y\n" [mkRelease 1 "v1" "see CHANGELOG", mkRelease 2 "v2" "CHANGELOG too",
          mkRelease 3 "v3" "a CHANGELOG"])).2.calls =
      [Call.ListReleases "o" "r" { Page := 0, PerPage := 100 },
       Call.EditRelease "o" "r" 1 (mkRelease 1 "v1" "see NOTES"),
       Call.EditRelease "o" "r" 2 (mkRelease 2 "v2" "NOTES too")] := by
  have h := run_batch_stops_at_first_failure (fun _ => memClient 100 [2])
    (batchFlags "CHANGELOG" "NOTES") 1
    (startWorld "y\n" [mkRelease 1 "v1" "see CHANGELOG", mkRelease 2 "v2" "CHANGELOG too",
      mkRelease 3 "v3" "a CHANGELOG"])
    { stdin := [], stdout := ["Are you sure you want to update all releases? (y/n): "],
      calls := [],
      remote := [mkRelease 1 "v1" "see CHANGELOG", mkRelease 2 "v2" "CHANGELOG too",
        mkRelease 3 "v3" "a CHANGELOG"] }
    { stdin := [],
      stdout := ["Are you sure you want to update all releases? (y/n): ",
        "Fetching all releases\n"],
      calls := [Call.ListReleases "o" "r" { Page := 0, PerPage := 100 }],
      remote := [mkRelease 1 "v1" "see CHANGELOG", mkRelease 2 "v2" "CHANGELOG too",
        mkRelease 3 "v3" "a CHANGELOG"] }
    [mkRelease 1 "v1" "see CHANGELOG"] [mkRelease 3 "v3" "a CHANGELOG"]
    (mkRelease 2 "v2" "CHANGELOG too") (.errorString "500 Internal Server Error")
    rfl rfl rfl rfl (by decide) (by decide) (by decide)
  exact ⟨h.1, h.2.1.trans (by decide)⟩

/-- C6. In batch mode with the answer `y`, a successful listing and every
write succeeding, `run` returns `nil`, and the write calls it issues are
exactly, in listing order, the edits of the releases whose body `ReplaceAll`
changes, each addressed to its own ID with the new body; a release whose body
is unchanged is fetched and not written. -/
theorem run_batch_writes_changed_releases {σ : Type} (NewClient : String → Client σ)
    (ctx : Flags) (fuel : Nat) (w w0 w1 : World σ) (releases : List RepositoryRelease)
    (hall : ctx.all = true) (htag : ctx.release = "")
    (hprompt : StringPrompt "Are you sure you want to update all releases? (y/n)" fuel w =
      (.ret "y", w0))
    (hfetch : getAllReleases (NewClient ctx.token) ctx.owner ctx.repo fuel
      (w0.Println "Fetching all releases") = (.ret (.ok releases), w1))
    (hok : ∀ s o r id rel, ((NewClient ctx.token).EditRelease s o r id rel).1 = none) :
    (run NewClient ctx fuel w).1 = .ret none ∧
    (run NewClient ctx fuel w).2.calls =
      w1.calls ++ writesOf ctx.owner ctx.repo ctx.value ctx.replacement releases ∧
    (run NewClient ctx fuel w).2.calls.filter Call.isWrite =
      w.calls.filter Call.isWrite ++
        writesOf ctx.owner ctx.repo ctx.value ctx.replacement releases := by
  have hrun := run_batch_of_fetched NewClient ctx fuel w w0 w1 releases hall htag hprompt hfetch
  have hnone := updateAll_of_writes_succeed (NewClient ctx.token) ctx.owner ctx.repo ctx.value
    ctx.replacement releases w1 hok
  have hcalls := updateAll_calls_of_success (NewClient ctx.token) ctx.owner ctx.repo ctx.value
    ctx.replacement releases w1 hnone
  have hw1 : w1.calls.filter Call.isWrite = w.calls.filter Call.isWrite := by
    have h1 := getAllReleasesLoop_writes (NewClient ctx.token) ctx.owner ctx.repo fuel
      { Page := 0, PerPage := 100 } [] (w0.Println "Fetching all releases")
    have h2 := (StringPrompt_calls "Are you sure you want to update all releases? (y/n)"
      fuel w).1
    unfold getAllReleases at hfetch
    rw [hfetch] at h1
    rw [hprompt] at h2
    simp only at h1 h2
    rw [h1]
    show w0.calls.filter Call.isWrite = _
    rw [h2]
  refine ⟨by rw [hrun.1, hnone], by rw [hrun.2, hcalls], ?_⟩
  rw [hrun.2, hcalls, List.filter_append, hw1, writesOf_all_isWrite]

/-- C6, witness: `v1` with body `see CHANGELOG` and `v2` with body
`no match here`; replacing `CHANGELOG` by `NOTES` issues exactly one write, to
`v1`, with the body `see NOTES`. -/
theorem run_batch_writes_changed_releases_witness :
    (run (fun _ => memClient 100 []) (batchFlags "CHANGELOG" "NOTES") 1
        (startWorld "y\n" [mkRelease 1 "v1" "see CHANGELOG",
          mkRelease 2 "v2" "no match here"])).1 = .ret none ∧
    (run (fun _ => memClient 100 []) (batchFlags "CHANGELOG" "NOTES") 1
        (startWorld "y\n" [mkRelease 1 "v1" "see CHANGELOG",
          mkRelease 2 "v2" "no match here"])).2.calls =
      [Call.ListReleases "o" "r" { Page := 0, PerPage := 100 },
       Call.EditRelease "o" "r" 1 (mkRelease 1 "v1" "see NOTES")] := by
  have h := run_batch_writes_changed_releases (fun _ => memClient 100 [])
    (batchFlags "CHANGELOG" "NOTES") 1
    (startWorld "y\n" [mkRelease 1 "v1" "see CHANGELOG", mkRelease 2 "v2" "no match here"])
    { stdin := [], stdout := ["Are you sure you want to update all releases? (y/n): "],
      calls := [],
      remote := [mkRelease 1 "v1" "see CHANGELOG", mkRelease 2 "v2" "no match here"] }
    { stdin := [],
      stdout := ["Are you sure you want to update all releases? (y/n): ",
        "Fetching all releases\n"],
      calls := [Call.ListReleases "o" "r" { Page := 0, PerPage := 100 }],
      remote := [mkRelease 1 "v1" "see CHANGELOG", mkRelease 2 "v2" "no match here"] }
    [mkRelease 1 "v1" "see CHANGELOG", mkRelease 2 "v2" "no match here"]
    rfl rfl rfl rfl (by intro s o r id rel; simp [memClient])
  exact ⟨h.1, h.2.1.trans (by decide)⟩

/-! ## `getAllReleases` -/

theorem pagedClient_list_of_page (pages : Int → PageResult) (owner repo : String)
    (opts : ListOptions) (s : Unit) (releases : List RepositoryRelease) (next : Int)
    (h : pages opts.Page = .page releases next) :
    (pagedClient pages).ListReleases s owner repo opts =
      (.success releases { StatusCode := 200, NextPage := next }, s) := by
  simp only [pagedClient, h]

theorem pagedClient_list_of_failed (pages : Int → PageResult) (owner repo : String)
    (opts : ListOptions) (s : Unit) (resp : Option Response) (err : GoError)
    (h : pages opts.Page = .failed resp err) :
    (pagedClient pages).ListReleases s owner repo opts = (.failure resp err, s) := by
  simp only [pagedClient, h]

/-- The loop walks the pages: after the pages of a walk it is at the page the
walk leads to, with their releases appended and one call issued for each. -/
theorem getAllReleasesLoop_of_Reaches (pages : Int → PageResult) (owner repo : String)
    (walk : List (Int × List RepositoryRelease)) (p q : Int) (k : Nat)
    (acc : List RepositoryRelease) (w : World Unit) (h : Reaches pages p walk q) :
    getAllReleasesLoop (pagedClient pages) owner repo (walk.length + k)
        { Page := p, PerPage := 100 } acc w =
      getAllReleasesLoop (pagedClient pages) owner repo k { Page := q, PerPage := 100 }
        (acc ++ (walk.map Prod.snd).flatten)
        { w with calls := w.calls ++ listCalls owner repo (walk.map Prod.fst) } := by
  induction walk generalizing p acc w with
  | nil =>
    simp only [Reaches] at h
    subst h
    simp [listCalls]
  | cons x rest ih =>
    obtain ⟨p', releases⟩ := x
    simp only [Reaches] at h
    obtain ⟨rfl, next, hnext, hpage, hrest⟩ := h
    have hlen : ((p', releases) :: rest).length + k = (rest.length + k) + 1 := by
      simp only [List.length_cons]; omega
    rw [hlen, getAllReleasesLoop]
    rw [pagedClient_list_of_page pages owner repo _ _ releases next hpage]
    simp only [hnext, if_false]
    rw [ih next _ _ hrest]
    simp [listCalls, List.append_assoc]

/-- The listing of `getAllReleases` over a service given as a map of pages.
When following `nextPage` from the first request leads, through the pages of
`walk`, to a page `q` that is the last one, `getAllReleases` returns, with fuel
for one round a page, the releases of all these pages in request order, having
requested each once with page size 100.  When `q` fails with an HTTP response,
it returns an error and no release.  When `q` fails without one, it panics. -/
theorem getAllReleases_follows_pages (pages : Int → PageResult) (owner repo : String)
    (walk : List (Int × List RepositoryRelease)) (q : Int) (k : Nat) (w : World Unit)
    (h : Reaches pages 0 walk q) :
    (∀ releases, pages q = .page releases 0 →
      getAllReleases (pagedClient pages) owner repo (walk.length + (k + 1)) w =
        (.ret (.ok ((walk.map Prod.snd).flatten ++ releases)),
          { w with calls := w.calls ++ listCalls owner repo (walk.map Prod.fst ++ [q]) })) ∧
    (∀ resp err, pages q = .failed (some resp) err →
      (getAllReleases (pagedClient pages) owner repo (walk.length + (k + 1)) w).1 =
        .ret (.error (if resp.StatusCode = 404 then
          .errorString ("repository " ++ owner ++ "/" ++ repo ++ " not found")
          else .wrapError ("failed to list releases: " ++ err.Error) err))) ∧
    (∀ err, pages q = .failed none err →
      (getAllReleases (pagedClient pages) owner repo (walk.length + (k + 1)) w).1 = .panic) := by
  unfold getAllReleases
  rw [getAllReleasesLoop_of_Reaches pages owner repo walk 0 q (k + 1) [] w h]
  refine ⟨?_, ?_, ?_⟩
  · intro releases hq
    rw [getAllReleasesLoop, pagedClient_list_of_page pages owner repo _ _ releases 0 hq]
    simp [listCalls, List.append_assoc]
  · intro resp err hq
    rw [getAllReleasesLoop, pagedClient_list_of_failed pages owner repo _ _ _ err hq]
    by_cases h404 : resp.StatusCode = 404
    · simp only [h404, if_true]
    · simp only [h404, if_false]
  · intro err hq
    rw [getAllReleasesLoop, pagedClient_list_of_failed pages owner repo _ _ _ err hq]

/-- The listing of two pages is returned whole, in request order, by two calls. -/
theorem getAllReleases_twoPages :
    getAllReleases (pagedClient twoPages) "o" "r" 2 (startWorld "" ()) =
      (.ret (.ok ([mkRelease 1 "v1" "see CHANGELOG"] ++ [mkRelease 2 "v2" "no match here"])),
        { startWorld "" () with
          calls := [] ++ listCalls "o" "r" ([0] ++ [2]) }) :=
  (getAllReleases_follows_pages twoPages "o" "r" [(0, [mkRelease 1 "v1" "see CHANGELOG"])] 2 0
    (startWorld "" ()) ⟨rfl, 2, by decide, rfl, rfl⟩).1 _ rfl

/-- C9, at the failing input: the first page is fetched and announces a second
page, and the request for the second page fails without an HTTP response.
`getAllReleases` does not return an error: it panics on `resp.StatusCode`,
after the two list calls.  (The defect is the one of C8.) -/
theorem getAllReleases_panics_on_failed_page :
    (getAllReleases (pagedClient brokenSecondPage) "o" "r" 5 (startWorld "" ())).1 = .panic ∧
    (getAllReleases (pagedClient brokenSecondPage) "o" "r" 5 (startWorld "" ())).2.calls =
      [Call.ListReleases "o" "r" { Page := 0, PerPage := 100 },
       Call.ListReleases "o" "r" { Page := 2, PerPage := 100 }] ∧
    (run (fun _ => pagedClient brokenSecondPage) (batchFlags "CHANGELOG" "NOTES") 5
      (startWorld "y\n" ())).1 = .panic :=
  ⟨rfl, by decide, by decide⟩

end GhUpdateRelease
